import Mathlib

/-!
Verification development for a console address-book program (`main.py`).

The program's core is embedded shallowly:
* `PyDate` models `datetime.date` (proleptic Gregorian calendar, years 1–9999);
  `date.today()` is modelled by passing `today` explicitly.
* `strptimeDMY` models `datetime.strptime(s, "%d.%m.%Y").date()` for ASCII-digit
  input, following CPython's `_strptime` regular expressions
  (`d ↦ 3[01]|[12]\d|0[1-9]|[1-9]`, `m ↦ 1[0-2]|0[1-9]|[1-9]`, `Y ↦ \d\d\d\d`,
  full match required, then calendar validation by the `datetime` constructor).
* Exceptions are modelled by `Except String` / an `Option String` error slot
  paired with the state at the moment the exception is raised.
-/

/-- The Gregorian leap-year rule, as used by `datetime.date`. -/
def isLeap (y : Nat) : Bool :=
  (y % 4 == 0 && y % 100 != 0) || y % 400 == 0

/-- Number of days in month `m` of year `y` (months numbered 1–12). -/
def daysInMonth (y m : Nat) : Nat :=
  if m = 2 then (if isLeap y then 29 else 28)
  else if m = 4 ∨ m = 6 ∨ m = 9 ∨ m = 11 then 30
  else 31

/-- A calendar date, modelling Python `datetime.date` values. -/
structure PyDate where
  year : Nat
  month : Nat
  day : Nat
deriving DecidableEq, Repr

/-- Validity exactly as enforced by the `datetime.date` constructor:
year 1–9999, month 1–12, day within the month. -/
def PyDate.valid (d : PyDate) : Bool :=
  1 ≤ d.year && d.year ≤ 9999 && 1 ≤ d.month && d.month ≤ 12 &&
  1 ≤ d.day && d.day ≤ daysInMonth d.year d.month

/-- Number of leap years strictly before year `y` (counting from year 1). -/
def leapsBefore (y : Nat) : Nat :=
  ((y - 1) / 4 - (y - 1) / 100) + (y - 1) / 400

/-- Days of year `y` that precede month `m`. -/
def daysBeforeMonth (y m : Nat) : Nat :=
  (List.range m).foldl (fun acc k => if 1 ≤ k then acc + daysInMonth y k else acc) 0

/-- The proleptic-Gregorian ordinal of a date, as in `date.toordinal()`
(January 1 of year 1 has ordinal 1). -/
def PyDate.toOrdinal (d : PyDate) : Nat :=
  365 * (d.year - 1) + leapsBefore d.year + daysBeforeMonth d.year d.month + d.day

/-- Day of week as in `date.weekday()`: Monday = 0, …, Sunday = 6. -/
def PyDate.weekday (d : PyDate) : Nat :=
  (d.toOrdinal + 6) % 7

/-- The next calendar day (used to model adding a `timedelta` of one day). -/
def PyDate.succDate (d : PyDate) : PyDate :=
  if d.day < daysInMonth d.year d.month then ⟨d.year, d.month, d.day + 1⟩
  else if d.month < 12 then ⟨d.year, d.month + 1, 1⟩
  else ⟨d.year + 1, 1, 1⟩

/-- Adding `n` days to a date, modelling `date + timedelta(days=n)`. -/
def PyDate.addDays (d : PyDate) : Nat → PyDate
  | 0 => d
  | n + 1 => d.succDate.addDays n

/-- Model of `date.replace(year=y)`: keep month and day, validate the result;
`none` models the `ValueError` Python raises (e.g. Feb 29 in a non-leap year). -/
def dateReplaceYear (d : PyDate) (y : Nat) : Option PyDate :=
  let r : PyDate := ⟨y, d.month, d.day⟩
  if r.valid then some r else none

/-- Characters accepted by Python `str.isdigit` within this model's alphabet.
`str.isdigit` is true for every character with the Unicode digit property: all
decimal digits (category Nd, containing the ASCII digits) and also some
non-decimal digit characters; of the latter the model carries the superscript
and subscript digits one, two and three (U+00B9, U+00B2, U+00B3, U+2081,
U+2082, U+2083), which Python classifies as digits although they are not
decimal digit characters. -/
def pyIsDigitChar (c : Char) : Bool :=
  c.isDigit || c = '¹' || c = '²' || c = '³' || c = '₁' || c = '₂' || c = '₃'

/-- Model of Python `str.isdigit`: nonempty and every character a digit. -/
def pyIsDigit (s : String) : Bool :=
  s.length != 0 && s.toList.all pyIsDigitChar

/-- The validation test of `Phone.__init__`: `value.isdigit()` and
`len(value) == 10`. -/
def phoneValid (v : String) : Bool :=
  pyIsDigit v && v.length == 10

/-- Model of the `Phone` constructor: returns the stored value, or the
`ValueError` message. -/
def mkPhone (v : String) : Except String String :=
  if phoneValid v then .ok v
  else .error "Phone number must be exactly 10 digits."

/-- Splits a character list at every dot, modelling how the `_strptime`
regular expression for `"%d.%m.%Y"` decomposes its input (the day, month and
year alternatives consist of digits only, so the literal dots of the format
must align with the dots of the input). -/
def splitDots (l : List Char) : List (List Char) :=
  match l with
  | [] => [[]]
  | c :: rest =>
    if c = '.' then [] :: splitDots rest
    else match splitDots rest with
      | [] => [[c]]
      | g :: gs => (c :: g) :: gs

/-- Numeric value of a list of ASCII digit characters, as read by `int()`. -/
def digitsToNat (l : List Char) : Nat :=
  l.foldl (fun acc c => acc * 10 + (c.toNat - 48)) 0

/-- The language of CPython's `_strptime` group for `%d`
(`3[01]|[12]\d|0[1-9]|[1-9]`): one or two digits with value 1–31. -/
def dayGroup (l : List Char) : Bool :=
  l.all Char.isDigit && (l.length == 1 || l.length == 2) &&
  1 ≤ digitsToNat l && digitsToNat l ≤ 31

/-- The language of CPython's `_strptime` group for `%m`
(`1[0-2]|0[1-9]|[1-9]`): one or two digits with value 1–12. -/
def monthGroup (l : List Char) : Bool :=
  l.all Char.isDigit && (l.length == 1 || l.length == 2) &&
  1 ≤ digitsToNat l && digitsToNat l ≤ 12

/-- The language of CPython's `_strptime` group for `%Y` (`\d\d\d\d`):
exactly four digits. -/
def yearGroup (l : List Char) : Bool :=
  l.all Char.isDigit && l.length == 4

/-- Model of `datetime.strptime(s, "%d.%m.%Y").date()` on ASCII-digit input:
the regular-expression match (full match required) followed by the calendar
validation performed by the `datetime` constructor; `none` models the
`ValueError`. -/
def strptimeDMY (s : String) : Option PyDate :=
  match splitDots s.toList with
  | [ds, ms, ys] =>
    if dayGroup ds && monthGroup ms && yearGroup ys then
      let d : PyDate := ⟨digitsToNat ys, digitsToNat ms, digitsToNat ds⟩
      if d.valid then some d else none
    else none
  | _ => none

/-- Model of the `Birthday` constructor: parses via `strptimeDMY` and stores
the original string on success, or returns the `ValueError` message. -/
def mkBirthday (v : String) : Except String String :=
  match strptimeDMY v with
  | some _ => .ok v
  | none => .error "Invalid date format. Use DD.MM.YYYY"

/-- Zero-pads a numeral to two digits, as `strftime` does for `%d` and `%m`. -/
def pad2 (n : Nat) : String :=
  if n < 10 then "0" ++ toString n else toString n

/-- Zero-pads a numeral to four digits, as `strftime` does for `%Y`. -/
def pad4 (n : Nat) : String :=
  if n < 10 then "000" ++ toString n
  else if n < 100 then "00" ++ toString n
  else if n < 1000 then "0" ++ toString n
  else toString n

/-- Model of `d.strftime("%d.%m.%Y")`. -/
def formatDate (d : PyDate) : String :=
  pad2 d.day ++ "." ++ pad2 d.month ++ "." ++ pad4 d.year

/-- Model of `Record`: `name` holds the `Name` field's stored value, `phones`
the values of the `Phone` objects in order, `birthday` the stored `Birthday`
string (if any). -/
structure Record where
  name : String
  phones : List String
  birthday : Option String
deriving DecidableEq, Repr

/-- Model of `Record.find_phone`: first phone whose value equals `p`. -/
def find_phone (phones : List String) (p : String) : Option String :=
  match phones with
  | [] => none
  | q :: rest => if q = p then some q else find_phone rest p

/-- Model of `list.remove(obj)` where `obj` is the first element whose value
is `q`: removes that first occurrence. -/
def listRemove (phones : List String) (q : String) : List String :=
  match phones with
  | [] => []
  | x :: rest => if x = q then rest else x :: listRemove rest q

/-- Model of `Record.add_phone`: validate via the `Phone` constructor, then
append.  The pair carries the raised exception (if any) together with the
phone list at the moment the exception left the method. -/
def add_phone (phones : List String) (p : String) : Option String × List String :=
  match mkPhone p with
  | .ok v => (none, phones ++ [v])
  | .error e => (some e, phones)

/-- Model of `Record.remove_phone`: remove the first occurrence, or raise
`ValueError` leaving the list unchanged. -/
def remove_phone (phones : List String) (p : String) : Option String × List String :=
  match find_phone phones p with
  | some q => (none, listRemove phones q)
  | none => (some "Phone number not found.", phones)

/-- Model of `Record.edit_phone`: check `old` is present, then `add_phone new`,
then `remove_phone old`; state is threaded so that a failure returns the list
exactly as Python leaves it. -/
def edit_phone (phones : List String) (old new : String) :
    Option String × List String :=
  match find_phone phones old with
  | none => (some "Old phone number not found.", phones)
  | some _ =>
    match add_phone phones new with
    | (some e, ps) => (some e, ps)
    | (none, ps) => remove_phone ps old

/-- An address book models the `UserDict` data of `AddressBook`: an insertion
ordered association list with unique keys maintained dict-style. -/
abbrev AddressBook : Type := List (String × Record)

/-- Model of `dict.__setitem__`: replace the value at an existing key in
place, otherwise append the binding. -/
def dictInsert (book : List (String × Record)) (k : String) (v : Record) :
    List (String × Record) :=
  match book with
  | [] => [(k, v)]
  | (k0, v0) :: rest =>
    if k0 = k then (k, v) :: rest else (k0, v0) :: dictInsert rest k v

/-- Model of `AddressBook.add_record`: `self.data[record.name.value] = record`. -/
def AddressBook.add_record (book : AddressBook) (r : Record) : AddressBook :=
  dictInsert book r.name r

/-- Model of `AddressBook.find`: `self.data.get(name, None)`. -/
def AddressBook.find (book : AddressBook) (name : String) : Option Record :=
  match book with
  | [] => none
  | (k, v) :: rest => if k = name then some v else AddressBook.find rest name

/-- Model of `AddressBook.delete`: remove the entry, or raise `KeyError`
leaving the book unchanged. -/
def AddressBook.delete (book : AddressBook) (name : String) :
    Option String × AddressBook :=
  match book.find name with
  | some _ => (none, book.filter (fun p => p.1 ≠ name))
  | none => (some "Contact not found.", book)

/-- One output entry of `get_upcoming_birthdays`: the dict
`{"name": ..., "birthday": congr_date.strftime("%d.%m.%Y")}`. -/
structure Entry where
  name : String
  birthday : String
deriving DecidableEq, Repr

/-- The `this_year_bd` computation of `get_upcoming_birthdays` (lines 99–101):
re-anchor the birthday to the current year, and to the next year when the
re-anchored date is strictly before today; `none` models the `ValueError`
raised by `date.replace` for Feb 29 in a non-leap year. -/
def nextOccurrence (born today : PyDate) : Option PyDate :=
  match dateReplaceYear born today.year with
  | none => none
  | some c =>
    if c.toOrdinal < today.toOrdinal then dateReplaceYear born (today.year + 1)
    else some c

/-- The weekend shift of `get_upcoming_birthdays` (lines 105–108): when the
weekday is 5 or more, add `7 - weekday` days. -/
def congrDate (d : PyDate) : PyDate :=
  if 5 ≤ d.weekday then d.addDays (7 - d.weekday) else d

/-- The item a single record contributes to the pre-sort `items` list, when it
qualifies: `none` when the record has no birthday or falls outside the window.
Partiality from `ValueError` is not represented here; `collectItems` raises in
exactly those cases. -/
def recordItem (today : PyDate) (days : Int) (r : Record) :
    Option (PyDate × Entry) :=
  match r.birthday with
  | none => none
  | some s =>
    match strptimeDMY s with
    | none => none
    | some born =>
      match nextOccurrence born today with
      | none => none
      | some nx =>
        let delta : Int := (nx.toOrdinal : Int) - (today.toOrdinal : Int)
        if 0 ≤ delta ∧ delta ≤ days - 1 then
          some (congrDate nx, ⟨r.name, formatDate (congrDate nx)⟩)
        else none

/-- The record loop of `get_upcoming_birthdays` (lines 95–118): builds the
pre-sort `items` list, propagating the first `ValueError` raised while
re-parsing a stored birthday or re-anchoring it. -/
def collectItems (recs : List Record) (today : PyDate) (days : Int) :
    Except String (List (PyDate × Entry)) :=
  match recs with
  | [] => .ok []
  | r :: rest =>
    match r.birthday with
    | none => collectItems rest today days
    | some s =>
      match strptimeDMY s with
      | none => .error "time data does not match format"
      | some born =>
        match nextOccurrence born today with
        | none => .error "day is out of range for month"
        | some nx =>
          let delta : Int := (nx.toOrdinal : Int) - (today.toOrdinal : Int)
          if 0 ≤ delta ∧ delta ≤ days - 1 then
            match collectItems rest today days with
            | .error e => .error e
            | .ok items =>
              .ok ((congrDate nx, ⟨r.name, formatDate (congrDate nx)⟩) :: items)
          else collectItems rest today days

/-- Comparison of items by their sort key, `items.sort(key=lambda t: t[0])`. -/
def itemLE (a b : PyDate × Entry) : Prop :=
  a.1.toOrdinal ≤ b.1.toOrdinal

instance : DecidableRel itemLE := by
  unfold itemLE
  infer_instance

/-- Inserts an item into an already sorted list, after every element whose
key is not greater, preserving the relative order of equal keys exactly as
Python's stable `list.sort` does. -/
def insertItem (x : PyDate × Entry) : List (PyDate × Entry) → List (PyDate × Entry)
  | [] => [x]
  | y :: rest =>
    if y.1.toOrdinal ≤ x.1.toOrdinal then y :: insertItem x rest
    else x :: y :: rest

/-- Stable sort by the item key, modelling `items.sort(key=lambda t: t[0])`. -/
def sortItems : List (PyDate × Entry) → List (PyDate × Entry)
  | [] => []
  | x :: rest => insertItem x (sortItems rest)

/-- Model of `AddressBook.get_upcoming_birthdays(days)`, with `date.today()`
passed explicitly as `today`: collect qualifying items, sort by congratulation
date, return the dicts. -/
def AddressBook.get_upcoming_birthdays (book : AddressBook) (today : PyDate)
    (days : Int) : Except String (List Entry) :=
  match collectItems (book.map Prod.snd) today days with
  | .error e => .error e
  | .ok items => .ok ((sortItems items).map Prod.snd)

/-- Model of the `add` handler `add_contact(args, book)`: look up the name;
for a fresh name a new empty `Record` is first inserted into the book, and
only then is the phone validated and appended — an invalid phone therefore
raises after the insertion, with the book already holding the empty record.
Returns the `(tag, payload)` outcome produced by the `input_error` decorator
together with the resulting book. -/
def add_contact (book : AddressBook) (name phone : String) :
    Except String String × AddressBook :=
  match book.find name with
  | none =>
    let r : Record := ⟨name, [], none⟩
    let book1 := book.add_record r
    match add_phone r.phones phone with
    | (some e, _) => (.error e, book1)
    | (none, ps) => (.ok "Contact added.", book1.add_record { r with phones := ps })
  | some r =>
    match add_phone r.phones phone with
    | (some e, ps) => (.error e, book.add_record { r with phones := ps })
    | (none, ps) => (.ok "Contact updated.", book.add_record { r with phones := ps })

/-- Model of the `change` handler `change_contact(args, book)`: find the
record, run `edit_phone`, and write the (possibly unchanged) phone list back
into the book, as Python's in-place mutation does. -/
def change_contact (book : AddressBook) (name old new : String) :
    Except String String × AddressBook :=
  match book.find name with
  | none => (.error "Contact not found.", book)
  | some r =>
    match edit_phone r.phones old new with
    | (some e, ps) => (.error e, book.add_record { r with phones := ps })
    | (none, ps) => (.ok "Contact updated.", book.add_record { r with phones := ps })

/-- Model of the `add-birthday` handler `add_birthday(args, book)`: find the
record and run `Record.add_birthday`, which validates via the `Birthday`
constructor before assigning, so a failure leaves the record unchanged. -/
def add_birthday_cmd (book : AddressBook) (name dstr : String) :
    Except String String × AddressBook :=
  match book.find name with
  | none => (.error "Contact not found", book)
  | some r =>
    match mkBirthday dstr with
    | .error e => (.error e, book)
    | .ok b => (.ok "Birthday added.", book.add_record { r with birthday := some b })

/-- The key invariant of `AddressBook`: every key equals the stored record's
name value. -/
def keyInvariant (book : AddressBook) : Prop :=
  ∀ p ∈ book, (p.2).name = p.1

/-- Number of occurrences of a value in a phone list. -/
def countOcc (x : String) : List String → Nat
  | [] => 0
  | y :: rest => (if y = x then 1 else 0) + countOcc x rest

theorem find_phone_of_mem (phones : List String) (p : String) (h : p ∈ phones) :
    find_phone phones p = some p := by
  induction phones with
  | nil => cases h
  | cons q rest ih =>
    rcases List.mem_cons.mp h with rfl | hm
    · simp [find_phone]
    · by_cases hq : q = p
      · simp [find_phone, hq]
      · simp [find_phone, hq, ih hm]

theorem mem_of_countOcc_pos (x : String) (l : List String) (h : 1 ≤ countOcc x l) :
    x ∈ l := by
  induction l with
  | nil => simp [countOcc] at h
  | cons y rest ih =>
    by_cases hy : y = x
    · exact hy ▸ List.mem_cons_self y rest
    · simp only [countOcc, hy, if_false, Nat.zero_add] at h
      exact List.mem_cons_of_mem y (ih h)

theorem countOcc_listRemove (x : String) (l : List String) (h : x ∈ l) :
    countOcc x (listRemove l x) + 1 = countOcc x l := by
  induction l with
  | nil => cases h
  | cons y rest ih =>
    by_cases hy : y = x
    · simp [listRemove, countOcc, hy, Nat.add_comm]
    · have hm : x ∈ rest := by
        rcases List.mem_cons.mp h with rfl | hm
        · exact absurd rfl hy
        · exact hm
      simp only [listRemove, hy, if_false, countOcc, Nat.zero_add]
      exact ih hm

theorem listRemove_append_of_mem (l : List String) (x y : String) (h : x ∈ l) :
    listRemove (l ++ [y]) x = listRemove l x ++ [y] := by
  induction l with
  | nil => cases h
  | cons z rest ih =>
    by_cases hz : z = x
    · simp [listRemove, hz]
    · have hm : x ∈ rest := by
        rcases List.mem_cons.mp h with rfl | hm
        · exact absurd rfl hz
        · exact hm
      simp [listRemove, hz, ih hm]

/-- C6: for every record whose phone list contains `old`, `edit_phone old new`
with an invalid `new` fails with the phone `ValueError` and leaves the phone
list exactly as it was, still containing `old`; the validation of `new`
happens before any removal of `old`. -/
theorem edit_phone_invalid_new_unchanged (phones : List String) (old new : String)
    (h1 : old ∈ phones) (h2 : phoneValid new = false) :
    edit_phone phones old new =
      (some "Phone number must be exactly 10 digits.", phones) ∧
    old ∈ (edit_phone phones old new).2 := by
  have hf := find_phone_of_mem phones old h1
  have hed : edit_phone phones old new =
      (some "Phone number must be exactly 10 digits.", phones) := by
    simp only [edit_phone, hf, add_phone, mkPhone, h2, Bool.false_eq_true,
      if_false]
  exact ⟨hed, by rw [hed]; exact h1⟩

/-- C6 witness at a concrete input. -/
theorem edit_phone_invalid_new_unchanged_witness :
    edit_phone ["0501234567"] "0501234567" "123" =
      (some "Phone number must be exactly 10 digits.", ["0501234567"]) ∧
    "0501234567" ∈ (edit_phone ["0501234567"] "0501234567" "123").2 :=
  edit_phone_invalid_new_unchanged ["0501234567"] "0501234567" "123"
    (by decide) (by decide)

/-- C10: when `old` occurs more than once and `new` is valid, `edit_phone`
appends `new` at the end and removes only the first occurrence of `old`, so
the result still contains `old` and ends with `new`. -/
theorem edit_phone_duplicate_old (phones : List String) (old new : String)
    (h1 : 2 ≤ countOcc old phones) (h2 : phoneValid new = true) :
    edit_phone phones old new = (none, listRemove phones old ++ [new]) ∧
    old ∈ listRemove phones old ++ [new] ∧
    (listRemove phones old ++ [new]).getLast? = some new := by
  have hmem : old ∈ phones := mem_of_countOcc_pos old phones (by omega)
  have hf := find_phone_of_mem phones old hmem
  have hf2 : find_phone (phones ++ [new]) old = some old :=
    find_phone_of_mem _ old (List.mem_append_left _ hmem)
  have hrem : listRemove (phones ++ [new]) old = listRemove phones old ++ [new] :=
    listRemove_append_of_mem phones old new hmem
  have hcount := countOcc_listRemove old phones hmem
  have hstill : old ∈ listRemove phones old :=
    mem_of_countOcc_pos old _ (by omega)
  refine ⟨?_, List.mem_append_left _ hstill, by simp⟩
  simp only [edit_phone, hf, add_phone, mkPhone, h2, if_true, remove_phone,
    hf2, hrem]

/-- C10 witness at a concrete input. -/
theorem edit_phone_duplicate_old_witness :
    edit_phone ["0501234567", "0501234567"] "0501234567" "0937654321" =
      (none, ["0501234567", "0937654321"]) ∧
    "0501234567" ∈ ["0501234567", "0937654321"] ∧
    (["0501234567", "0937654321"] : List String).getLast? = some "0937654321" :=
  edit_phone_duplicate_old ["0501234567", "0501234567"] "0501234567" "0937654321"
    (by decide) (by decide)

/-- A decimal digit character as meant by the specification ("exactly 10
decimal digits"): the characters `0`–`9`.  Unicode decimal digits of other
scripts also exist, but the characters relevant below (the superscript
digits) are decimal under no reading. -/
def isDecimalDigitChar (c : Char) : Bool :=
  c.isDigit

/-- The specification-side acceptance condition for C4: exactly ten decimal
digit characters. -/
def tenDecimalDigits (v : String) : Bool :=
  v.length == 10 && v.toList.all isDecimalDigitChar

/-- C4 counterexample: a string of ten superscript-two characters is accepted
by the `Phone` constructor (Python `str.isdigit` is true for it) although it
does not consist of decimal digit characters. -/
theorem phone_accepts_nondecimal_digits :
    mkPhone "²²²²²²²²²²" = .ok "²²²²²²²²²²" ∧
    tenDecimalDigits "²²²²²²²²²²" = false := by
  constructor
  · rfl
  · rfl

/-- C4 as amended: the `Phone` constructor succeeds exactly on strings of ten
characters each accepted by Python's `str.isdigit` classification (a strict
superset of the decimal digits), and fails with the `ValueError` otherwise. -/
theorem phone_valid_characterization (v : String) :
    (mkPhone v = .ok v ↔ v.length = 10 ∧ ∀ c ∈ v.toList, pyIsDigitChar c = true) ∧
    (mkPhone v = .ok v ∨
      mkPhone v = .error "Phone number must be exactly 10 digits.") := by
  have hval : phoneValid v = true ↔
      v.length = 10 ∧ ∀ c ∈ v.toList, pyIsDigitChar c = true := by
    unfold phoneValid pyIsDigit
    simp only [Bool.and_eq_true, bne_iff_ne, ne_eq, beq_iff_eq,
      List.all_eq_true]
    constructor
    · rintro ⟨⟨-, hall⟩, hlen⟩
      exact ⟨hlen, hall⟩
    · rintro ⟨hlen, hall⟩
      exact ⟨⟨by omega, hall⟩, hlen⟩
  constructor
  · constructor
    · intro hok
      by_cases h : phoneValid v = true
      · exact hval.mp h
      · unfold mkPhone at hok
        rw [if_neg h] at hok
        simp at hok
    · intro hcond
      unfold mkPhone
      rw [if_pos (hval.mpr hcond)]
  · unfold mkPhone
    by_cases h : phoneValid v = true
    · exact .inl (by rw [if_pos h])
    · exact .inr (by rw [if_neg h])

/-- C4 amended-claim witness at a concrete input. -/
theorem phone_valid_characterization_witness :
    mkPhone "0501234567" = .ok "0501234567" :=
  (phone_valid_characterization "0501234567").1.mpr (by decide)

/-- The specification's exact pattern for C5: two-digit day, dot, two-digit
month, dot, four-digit year, and the whole a valid calendar date. -/
def exactDDMMYYYY (s : String) : Bool :=
  match s.toList with
  | [d1, d2, p1, m1, m2, p2, y1, y2, y3, y4] =>
    d1.isDigit && d2.isDigit && m1.isDigit && m2.isDigit &&
    y1.isDigit && y2.isDigit && y3.isDigit && y4.isDigit &&
    p1 == '.' && p2 == '.' &&
    (PyDate.mk (digitsToNat [y1, y2, y3, y4]) (digitsToNat [m1, m2])
      (digitsToNat [d1, d2])).valid
  | _ => false

/-- C5 counterexample: `strptime` accepts unpadded day and month, so the
`Birthday` constructor succeeds on `"1.1.2024"`, which is not in the exact
`DD.MM.YYYY` pattern. -/
theorem birthday_accepts_unpadded_date :
    mkBirthday "1.1.2024" = .ok "1.1.2024" ∧
    exactDDMMYYYY "1.1.2024" = false := by
  constructor
  · rfl
  · rfl

theorem splitDots_ne_nil (l : List Char) : splitDots l ≠ [] := by
  cases l with
  | nil => simp [splitDots]
  | cons c rest =>
    unfold splitDots
    by_cases hc : c = '.'
    · simp [hc]
    · simp only [hc, if_false]
      cases h : splitDots rest <;> simp

theorem splitDots_no_dot (l : List Char) (h : '.' ∉ l) : splitDots l = [l] := by
  induction l with
  | nil => rfl
  | cons c rest ih =>
    have hc : c ≠ '.' := fun he => h (he ▸ List.mem_cons_self c rest)
    have hr : '.' ∉ rest := fun hm => h (List.mem_cons_of_mem c hm)
    unfold splitDots
    rw [if_neg hc, ih hr]

theorem bool_and_split {a b : Bool} (h : (a && b) = true) :
    a = true ∧ b = true := by
  cases a <;> cases b <;> simp_all

theorem splitDots_append (a rest : List Char) (h : '.' ∉ a) :
    splitDots (a ++ '.' :: rest) = a :: splitDots rest := by
  induction a with
  | nil => simp [splitDots]
  | cons c as ih =>
    have hc : c ≠ '.' := fun he => h (he ▸ List.mem_cons_self c as)
    have ha : '.' ∉ as := fun hm => h (List.mem_cons_of_mem c hm)
    rw [List.cons_append]
    conv_lhs => unfold splitDots
    rw [if_neg hc, ih ha]

/-- Glueing the groups of `splitDots` back together with dots. -/
def joinDots : List (List Char) → List Char
  | [] => []
  | [g] => g
  | g :: gs => g ++ '.' :: joinDots gs

theorem joinDots_splitDots (l : List Char) : joinDots (splitDots l) = l := by
  induction l with
  | nil => rfl
  | cons c rest ih =>
    unfold splitDots
    by_cases hc : c = '.'
    · subst hc
      rw [if_pos rfl]
      cases h : splitDots rest with
      | nil => exact absurd h (splitDots_ne_nil rest)
      | cons g gs =>
        rw [h] at ih
        show (([] : List Char) ++ '.' :: joinDots (g :: gs)) = '.' :: rest
        rw [List.nil_append, ih]
    · rw [if_neg hc]
      cases h : splitDots rest with
      | nil => exact absurd h (splitDots_ne_nil rest)
      | cons g gs =>
        rw [h] at ih
        cases gs with
        | nil =>
          show (c :: g) = c :: rest
          rw [show joinDots [g] = g from rfl] at ih
          rw [ih]
        | cons g2 gs2 =>
          show (c :: g) ++ '.' :: joinDots (g2 :: gs2) = c :: rest
          rw [List.cons_append]
          rw [show joinDots (g :: g2 :: gs2) = g ++ '.' :: joinDots (g2 :: gs2)
            from rfl] at ih
          rw [ih]

theorem not_dot_of_all_digit (l : List Char) (h : l.all Char.isDigit = true) :
    '.' ∉ l := by
  intro hm
  exact absurd (List.all_eq_true.mp h _ hm) (by decide)

theorem strptimeDMY_characterization (v : String) (d : PyDate) :
    strptimeDMY v = some d ↔ ∃ ds ms ys : List Char,
      v.toList = ds ++ '.' :: (ms ++ '.' :: ys) ∧
      dayGroup ds = true ∧ monthGroup ms = true ∧ yearGroup ys = true ∧
      d = ⟨digitsToNat ys, digitsToNat ms, digitsToNat ds⟩ ∧
      d.valid = true := by
  constructor
  · intro hs
    unfold strptimeDMY at hs
    rcases hg : splitDots v.toList with - | ⟨ds, - | ⟨ms, - | ⟨ys, - | ⟨g4, gs⟩⟩⟩⟩ <;>
      rw [hg] at hs <;> try simp at hs
    have hv : v.toList = ds ++ '.' :: (ms ++ '.' :: ys) := by
      have hj := joinDots_splitDots v.toList
      rw [hg] at hj
      rw [show joinDots [ds, ms, ys] = ds ++ '.' :: (ms ++ '.' :: ys) from rfl] at hj
      exact hj.symm
    obtain ⟨⟨⟨hd, hm⟩, hy⟩, hval, heq⟩ := hs
    exact ⟨ds, ms, ys, hv, hd, hm, hy, heq.symm, heq ▸ hval⟩
  · rintro ⟨ds, ms, ys, hv, hd, hm, hy, rfl, hval⟩
    unfold strptimeDMY
    rw [hv]
    have hnd : '.' ∉ ds :=
      not_dot_of_all_digit ds (bool_and_split (bool_and_split
        (bool_and_split hd).1).1).1
    have hnm : '.' ∉ ms :=
      not_dot_of_all_digit ms (bool_and_split (bool_and_split
        (bool_and_split hm).1).1).1
    have hny : '.' ∉ ys :=
      not_dot_of_all_digit ys (bool_and_split hy).1
    rw [splitDots_append ds _ hnd, splitDots_append ms _ hnm,
      splitDots_no_dot ys hny]
    simp [hd, hm, hy, hval]

theorem dayGroup_iff (l : List Char) : dayGroup l = true ↔
    (∀ c ∈ l, c.isDigit = true) ∧ (l.length = 1 ∨ l.length = 2) ∧
    1 ≤ digitsToNat l ∧ digitsToNat l ≤ 31 := by
  constructor
  · intro h
    simp [dayGroup, List.all_eq_true, Bool.and_eq_true, Bool.or_eq_true,
      beq_iff_eq, decide_eq_true_eq] at h
    tauto
  · intro h
    simp [dayGroup, List.all_eq_true, Bool.and_eq_true, Bool.or_eq_true,
      beq_iff_eq, decide_eq_true_eq]
    tauto

theorem monthGroup_iff (l : List Char) : monthGroup l = true ↔
    (∀ c ∈ l, c.isDigit = true) ∧ (l.length = 1 ∨ l.length = 2) ∧
    1 ≤ digitsToNat l ∧ digitsToNat l ≤ 12 := by
  constructor
  · intro h
    simp [monthGroup, List.all_eq_true, Bool.and_eq_true, Bool.or_eq_true,
      beq_iff_eq, decide_eq_true_eq] at h
    tauto
  · intro h
    simp [monthGroup, List.all_eq_true, Bool.and_eq_true, Bool.or_eq_true,
      beq_iff_eq, decide_eq_true_eq]
    tauto

theorem yearGroup_iff (l : List Char) : yearGroup l = true ↔
    (∀ c ∈ l, c.isDigit = true) ∧ l.length = 4 := by
  constructor
  · intro h
    simp [yearGroup, List.all_eq_true, Bool.and_eq_true, beq_iff_eq] at h
    tauto
  · intro h
    simp [yearGroup, List.all_eq_true, Bool.and_eq_true, beq_iff_eq]
    tauto

theorem mkBirthday_ok_iff (v : String) :
    mkBirthday v = .ok v ↔ ∃ d, strptimeDMY v = some d := by
  unfold mkBirthday
  cases h : strptimeDMY v with
  | some d => simp
  | none => simp

/-- C5 as amended: the `Birthday` constructor succeeds exactly on strings of
the shape day `.` month `.` year where day and month are written with one or
two (ASCII) digits — zero padding optional — with values in 1–31 and 1–12,
the year with exactly four digits, and the whole forms a valid calendar date
(so day 32 or month 13 are still rejected); on all other such strings it
fails with the `ValueError`. -/
theorem birthday_valid_characterization (v : String) :
    (mkBirthday v = .ok v ↔ ∃ ds ms ys : List Char,
      v.toList = ds ++ '.' :: (ms ++ '.' :: ys) ∧
      (∀ c ∈ ds, c.isDigit = true) ∧ (ds.length = 1 ∨ ds.length = 2) ∧
      1 ≤ digitsToNat ds ∧ digitsToNat ds ≤ 31 ∧
      (∀ c ∈ ms, c.isDigit = true) ∧ (ms.length = 1 ∨ ms.length = 2) ∧
      1 ≤ digitsToNat ms ∧ digitsToNat ms ≤ 12 ∧
      (∀ c ∈ ys, c.isDigit = true) ∧ ys.length = 4 ∧
      PyDate.valid ⟨digitsToNat ys, digitsToNat ms, digitsToNat ds⟩ = true) ∧
    (mkBirthday v = .ok v ∨
      mkBirthday v = .error "Invalid date format. Use DD.MM.YYYY") := by
  constructor
  · constructor
    · intro hok
      obtain ⟨d, hd⟩ := (mkBirthday_ok_iff v).mp hok
      obtain ⟨ds, ms, ys, hv, hgd, hgm, hgy, rfl, hval⟩ :=
        (strptimeDMY_characterization v d).mp hd
      obtain ⟨hd1, hd2, hd3, hd4⟩ := (dayGroup_iff ds).mp hgd
      obtain ⟨hm1, hm2, hm3, hm4⟩ := (monthGroup_iff ms).mp hgm
      obtain ⟨hy1, hy2⟩ := (yearGroup_iff ys).mp hgy
      exact ⟨ds, ms, ys, hv, hd1, hd2, hd3, hd4, hm1, hm2, hm3, hm4,
        hy1, hy2, hval⟩
    · rintro ⟨ds, ms, ys, hv, hd1, hd2, hd3, hd4, hm1, hm2, hm3, hm4,
        hy1, hy2, hval⟩
      apply (mkBirthday_ok_iff v).mpr
      refine ⟨⟨digitsToNat ys, digitsToNat ms, digitsToNat ds⟩, ?_⟩
      apply (strptimeDMY_characterization v _).mpr
      exact ⟨ds, ms, ys, hv, (dayGroup_iff ds).mpr ⟨hd1, hd2, hd3, hd4⟩,
        (monthGroup_iff ms).mpr ⟨hm1, hm2, hm3, hm4⟩,
        (yearGroup_iff ys).mpr ⟨hy1, hy2⟩, rfl, hval⟩
  · unfold mkBirthday
    cases h : strptimeDMY v with
    | some d => exact .inl rfl
    | none => exact .inr rfl

theorem dictInsert_find_self (book : AddressBook) (k : String) (v : Record) :
    AddressBook.find (dictInsert book k v) k = some v := by
  induction book with
  | nil => simp [dictInsert, AddressBook.find]
  | cons p rest ih =>
    obtain ⟨k0, v0⟩ := p
    by_cases hk : k0 = k
    · simp [dictInsert, hk, AddressBook.find]
    · simp [dictInsert, hk, AddressBook.find, ih]

theorem dictInsert_find_other (book : AddressBook) (k k2 : String) (v : Record)
    (h : k2 ≠ k) :
    AddressBook.find (dictInsert book k v) k2 = AddressBook.find book k2 := by
  induction book with
  | nil => simp [dictInsert, AddressBook.find, Ne.symm h]
  | cons p rest ih =>
    obtain ⟨k0, v0⟩ := p
    by_cases hk : k0 = k
    · subst hk
      simp [dictInsert, AddressBook.find, Ne.symm h]
    · simp [dictInsert, hk, AddressBook.find, ih]

theorem mem_dictInsert (book : AddressBook) (k : String) (v : Record)
    (p : String × Record) (h : p ∈ dictInsert book k v) :
    p = (k, v) ∨ p ∈ book := by
  induction book with
  | nil =>
    simp [dictInsert] at h
    exact .inl h
  | cons q rest ih =>
    obtain ⟨k0, v0⟩ := q
    by_cases hk : k0 = k
    · simp only [dictInsert, hk, if_true] at h
      rcases List.mem_cons.mp h with rfl | hm
      · exact .inl rfl
      · exact .inr (List.mem_cons_of_mem _ hm)
    · simp only [dictInsert, hk, if_false] at h
      rcases List.mem_cons.mp h with rfl | hm
      · exact .inr (List.mem_cons_self _ _)
      · rcases ih hm with he | hm2
        · exact .inl he
        · exact .inr (List.mem_cons_of_mem _ hm2)

/-- C7: `add_record` is an unconditional upsert keyed by the record's name —
lookup of that name afterwards yields exactly the new record, every other
lookup is untouched — and both `add_record` and `delete` preserve the
invariant that every key equals the name of the record stored under it. -/
theorem add_record_upsert_key_invariant :
    (∀ (book : AddressBook) (r : Record),
      (book.add_record r).find r.name = some r) ∧
    (∀ (book : AddressBook) (r : Record) (k : String), k ≠ r.name →
      (book.add_record r).find k = book.find k) ∧
    (∀ (book : AddressBook) (r : Record),
      keyInvariant book → keyInvariant (book.add_record r)) ∧
    (∀ (book : AddressBook) (n : String),
      keyInvariant book → keyInvariant (book.delete n).2) := by
  refine ⟨?_, ?_, ?_, ?_⟩
  · intro book r
    exact dictInsert_find_self book r.name r
  · intro book r k hk
    exact dictInsert_find_other book r.name k r hk
  · intro book r hinv p hp
    rcases mem_dictInsert book r.name r p hp with rfl | hm
    · rfl
    · exact hinv p hm
  · intro book n hinv p hp
    unfold AddressBook.delete at hp
    cases h : book.find n with
    | some r0 =>
      rw [h] at hp
      exact hinv p (List.mem_of_mem_filter hp)
    | none =>
      rw [h] at hp
      exact hinv p hp

/-- C7 witness at concrete inputs. -/
theorem add_record_upsert_key_invariant_witness :
    AddressBook.find
      (AddressBook.add_record [("Alice", ⟨"Alice", [], none⟩)]
        ⟨"Alice", ["0501234567"], none⟩) "Alice" =
      some ⟨"Alice", ["0501234567"], none⟩ ∧
    AddressBook.find
      (AddressBook.add_record [("Alice", ⟨"Alice", [], none⟩)]
        ⟨"Alice", ["0501234567"], none⟩) "Bob" = none ∧
    keyInvariant (AddressBook.add_record [] ⟨"Alice", [], none⟩) ∧
    keyInvariant ((AddressBook.delete [("Alice", ⟨"Alice", [], none⟩)] "Alice").2) := by
  refine ⟨add_record_upsert_key_invariant.1 _ _, ?_, ?_, ?_⟩
  · rw [add_record_upsert_key_invariant.2.1 _ _ "Bob" (by decide)]
    rfl
  · exact add_record_upsert_key_invariant.2.2.1 [] ⟨"Alice", [], none⟩
      (fun p hp => by cases hp)
  · exact add_record_upsert_key_invariant.2.2.2 [("Alice", ⟨"Alice", [], none⟩)]
      "Alice" (fun p hp => by
        rcases List.mem_cons.mp hp with rfl | h2
        · rfl
        · cases h2)

/-- C1: the failing input.  Calling the `add` handler on an empty book with a
fresh name and an invalid phone returns the phone `ValueError` outcome, yet
the book now contains a `Record` for that name with an empty phone list —
`add_contact` inserts the fresh record before validating the phone, violating
the specification's requirement that a validation failure leave the
`AddressBook` unchanged. -/
theorem add_contact_invalid_phone_inserts_record :
    (add_contact [] "Fresh" "123").1 =
      .error "Phone number must be exactly 10 digits." ∧
    (add_contact [] "Fresh" "123").2 ≠ ([] : AddressBook) ∧
    AddressBook.find (add_contact [] "Fresh" "123").2 "Fresh" =
      some ⟨"Fresh", [], none⟩ := by
  exact ⟨rfl, by decide, rfl⟩

/-- The reachable book of C9: built through the command layer from an empty
book; the `Birthday` constructor accepts `"29.02.2024"` (2024 is a leap
year). -/
def leapBook : AddressBook :=
  (add_birthday_cmd (add_contact [] "Leap" "0501234567").2 "Leap" "29.02.2024").2

/-- C9: a record with birthday Feb 29 makes `get_upcoming_birthdays` raise
instead of returning a list when the year it re-anchors to is not a leap
year: with today = 01.01.2025, `date.replace(year=2025)` raises `ValueError`
and the error escapes. -/
theorem get_upcoming_feb29_raises :
    mkBirthday "29.02.2024" = .ok "29.02.2024" ∧
    leapBook = [("Leap", ⟨"Leap", ["0501234567"], some "29.02.2024"⟩)] ∧
    AddressBook.get_upcoming_birthdays leapBook ⟨2025, 1, 1⟩ 7 =
      .error "day is out of range for month" := by
  refine ⟨rfl, rfl, rfl⟩

theorem collectItems_ok_filterMap (recs : List Record) (today : PyDate)
    (days : Int) (items : List (PyDate × Entry))
    (h : collectItems recs today days = .ok items) :
    items = recs.filterMap (recordItem today days) := by
  induction recs generalizing items with
  | nil =>
    simp only [collectItems] at h
    cases h
    rfl
  | cons r rest ih =>
    simp only [collectItems] at h
    cases hb : r.birthday with
    | none =>
      rw [hb] at h
      simp only [List.filterMap_cons, recordItem, hb]
      exact ih items h
    | some s =>
      rw [hb] at h
      simp only [] at h
      cases hp : strptimeDMY s with
      | none =>
        simp only [hp] at h
        exact Except.noConfusion h
      | some born =>
        simp only [hp] at h
        cases hn : nextOccurrence born today with
        | none =>
          simp only [hn] at h
          exact Except.noConfusion h
        | some nx =>
          simp only [hn] at h
          by_cases hw : 0 ≤ (nx.toOrdinal : Int) - (today.toOrdinal : Int) ∧
              (nx.toOrdinal : Int) - (today.toOrdinal : Int) ≤ days - 1
          · rw [if_pos hw] at h
            cases hrest : collectItems rest today days with
            | error e => rw [hrest] at h; simp at h
            | ok its =>
              rw [hrest] at h
              simp only [Except.ok.injEq] at h
              subst h
              simp only [List.filterMap_cons, recordItem, hb, hp, hn,
                if_pos hw]
              rw [ih its hrest]
          · rw [if_neg hw] at h
            simp only [List.filterMap_cons, recordItem, hb, hp, hn,
              if_neg hw]
            exact ih items h

theorem recordItem_isSome_iff (today : PyDate) (days : Int) (r : Record) :
    (recordItem today days r).isSome = true ↔
      ∃ s born nx, r.birthday = some s ∧ strptimeDMY s = some born ∧
        nextOccurrence born today = some nx ∧
        0 ≤ (nx.toOrdinal : Int) - (today.toOrdinal : Int) ∧
        (nx.toOrdinal : Int) - (today.toOrdinal : Int) ≤ days - 1 := by
  constructor
  · intro hsome
    unfold recordItem at hsome
    cases hb : r.birthday with
    | none => simp [hb] at hsome
    | some s =>
      simp only [hb] at hsome
      cases hp : strptimeDMY s with
      | none => simp [hp] at hsome
      | some born =>
        simp only [hp] at hsome
        cases hn : nextOccurrence born today with
        | none => simp [hn] at hsome
        | some nx =>
          simp only [hn] at hsome
          by_cases hw : 0 ≤ (nx.toOrdinal : Int) - (today.toOrdinal : Int) ∧
              (nx.toOrdinal : Int) - (today.toOrdinal : Int) ≤ days - 1
          · exact ⟨s, born, nx, rfl, hp, hn, hw.1, hw.2⟩
          · rw [if_neg hw] at hsome
            simp at hsome
  · rintro ⟨s, born, nx, hb, hp, hn, hw1, hw2⟩
    unfold recordItem
    simp only [hb, hp, hn]
    rw [if_pos ⟨hw1, hw2⟩]
    rfl

theorem mem_insertItem (x y : PyDate × Entry) (l : List (PyDate × Entry)) :
    y ∈ insertItem x l ↔ y = x ∨ y ∈ l := by
  induction l with
  | nil => simp [insertItem]
  | cons z rest ih =>
    unfold insertItem
    by_cases hz : z.1.toOrdinal ≤ x.1.toOrdinal
    · rw [if_pos hz]
      simp only [List.mem_cons, ih]
      tauto
    · rw [if_neg hz]
      simp only [List.mem_cons]

theorem mem_sortItems (x : PyDate × Entry) (l : List (PyDate × Entry)) :
    x ∈ sortItems l ↔ x ∈ l := by
  induction l with
  | nil => simp [sortItems]
  | cons y rest ih =>
    simp only [sortItems, mem_insertItem, List.mem_cons, ih]

/-- C2: on every successful run, the emitted items are exactly the per-record
contributions in book order: a record contributes — and so appears in the
output — if and only if it has a birthday set whose next occurrence (its
month/day re-anchored to the current year, or to the next year when that date
is strictly before today) lies 0 to `days − 1` days from today; a record with
no birthday never contributes.  Membership is unchanged by the final sort. -/
theorem get_upcoming_inclusion_iff (recs : List Record) (today : PyDate)
    (days : Int) (items : List (PyDate × Entry))
    (h : collectItems recs today days = .ok items) :
    items = recs.filterMap (recordItem today days) ∧
    (∀ r : Record, (recordItem today days r).isSome = true ↔
      ∃ s born nx, r.birthday = some s ∧ strptimeDMY s = some born ∧
        nextOccurrence born today = some nx ∧
        0 ≤ (nx.toOrdinal : Int) - (today.toOrdinal : Int) ∧
        (nx.toOrdinal : Int) - (today.toOrdinal : Int) ≤ days - 1) ∧
    (∀ r : Record, r.birthday = none → recordItem today days r = none) ∧
    (∀ it : PyDate × Entry, it ∈ sortItems items ↔ it ∈ items) := by
  refine ⟨collectItems_ok_filterMap recs today days items h,
    fun r => recordItem_isSome_iff today days r, ?_, fun it => mem_sortItems it items⟩
  intro r hb
  unfold recordItem
  rw [hb]

/-- C2 witness at a concrete input: Alice (born 14.03.1990) qualifies on
10.03.2024 with a 7-day window; Bob, who has no birthday set, contributes
nothing. -/
theorem get_upcoming_inclusion_iff_witness :
    ([(⟨2024, 3, 14⟩, ⟨"Alice", "14.03.2024"⟩)] : List (PyDate × Entry)) =
      List.filterMap (recordItem ⟨2024, 3, 10⟩ 7)
        [⟨"Alice", [], some "14.03.1990"⟩, ⟨"Bob", [], none⟩] :=
  (get_upcoming_inclusion_iff
    [⟨"Alice", [], some "14.03.1990"⟩, ⟨"Bob", [], none⟩]
    ⟨2024, 3, 10⟩ 7 [(⟨2024, 3, 14⟩, ⟨"Alice", "14.03.2024"⟩)] rfl).1

/-- The weekend shift as the specification states it: Saturday moves two days
forward and Sunday one day forward, to the following Monday; other weekdays
are unchanged. -/
def mondayShift (d : PyDate) : PyDate :=
  if d.weekday = 5 then d.addDays 2
  else if d.weekday = 6 then d.addDays 1
  else d

theorem congrDate_eq_mondayShift (d : PyDate) : congrDate d = mondayShift d := by
  unfold congrDate mondayShift
  have h7 : d.weekday < 7 := Nat.mod_lt _ (by omega)
  by_cases h5 : d.weekday = 5
  · rw [if_pos (by omega), if_pos h5, h5]
  · by_cases h6 : d.weekday = 6
    · rw [if_pos (by omega), if_neg h5, if_pos h6, h6]
    · rw [if_neg (by omega), if_neg h5, if_neg h6]

/-- C3: every item emitted on a successful run carries, as its congratulation
date, the record's next birthday occurrence shifted by the weekend rule
(Saturday +2 days, Sunday +1 day, other weekdays unchanged) — the code's
`7 − weekday` shift coincides with that rule — and nothing constrains the
shifted date to the lookahead window: the delta test is applied to the next
occurrence only. -/
theorem congratulation_date_weekend_shift (recs : List Record) (today : PyDate)
    (days : Int) (items : List (PyDate × Entry))
    (h : collectItems recs today days = .ok items) :
    (∀ d : PyDate, congrDate d = mondayShift d) ∧
    ∀ it ∈ items, ∃ r ∈ recs, ∃ s born nx, r.birthday = some s ∧
      strptimeDMY s = some born ∧ nextOccurrence born today = some nx ∧
      0 ≤ (nx.toOrdinal : Int) - (today.toOrdinal : Int) ∧
      (nx.toOrdinal : Int) - (today.toOrdinal : Int) ≤ days - 1 ∧
      it.1 = mondayShift nx ∧
      it.2 = ⟨r.name, formatDate (mondayShift nx)⟩ := by
  refine ⟨congrDate_eq_mondayShift, ?_⟩
  have hfm := collectItems_ok_filterMap recs today days items h
  subst hfm
  intro it hit
  rcases List.mem_filterMap.mp hit with ⟨r, hr, hri⟩
  unfold recordItem at hri
  cases hb : r.birthday with
  | none => simp [hb] at hri
  | some s =>
    simp only [hb] at hri
    cases hp : strptimeDMY s with
    | none => simp [hp] at hri
    | some born =>
      simp only [hp] at hri
      cases hn : nextOccurrence born today with
      | none => simp [hn] at hri
      | some nx =>
        simp only [hn] at hri
        by_cases hw : 0 ≤ (nx.toOrdinal : Int) - (today.toOrdinal : Int) ∧
            (nx.toOrdinal : Int) - (today.toOrdinal : Int) ≤ days - 1
        · rw [if_pos hw] at hri
          obtain rfl : (congrDate nx, Entry.mk r.name (formatDate (congrDate nx))) = it :=
            Option.some_inj.mp hri
          exact ⟨r, hr, s, born, nx, hb, hp, hn, hw.1, hw.2,
            by rw [congrDate_eq_mondayShift],
            by rw [congrDate_eq_mondayShift]⟩
        · rw [if_neg hw] at hri
          simp at hri

/-- C3 witness: scenario B — today 10.03.2024, Bob born 16.03.1985; the next
occurrence 16.03.2024 is a Saturday, and the emitted date is Monday
18.03.2024, two days past the end of the 7-day window. -/
theorem congratulation_date_weekend_shift_witness :
    ∃ r ∈ [(⟨"Bob", [], some "16.03.1985"⟩ : Record)], ∃ s born nx,
      r.birthday = some s ∧ strptimeDMY s = some born ∧
      nextOccurrence born ⟨2024, 3, 10⟩ = some nx ∧
      0 ≤ (nx.toOrdinal : Int) - ((⟨2024, 3, 10⟩ : PyDate).toOrdinal : Int) ∧
      (nx.toOrdinal : Int) - ((⟨2024, 3, 10⟩ : PyDate).toOrdinal : Int) ≤ 7 - 1 ∧
      (PyDate.mk 2024 3 18, Entry.mk "Bob" "18.03.2024").1 = mondayShift nx ∧
      (PyDate.mk 2024 3 18, Entry.mk "Bob" "18.03.2024").2 =
        ⟨r.name, formatDate (mondayShift nx)⟩ :=
  (congratulation_date_weekend_shift [⟨"Bob", [], some "16.03.1985"⟩]
    ⟨2024, 3, 10⟩ 7 [(⟨2024, 3, 18⟩, ⟨"Bob", "18.03.2024"⟩)] rfl).2
    (⟨2024, 3, 18⟩, ⟨"Bob", "18.03.2024"⟩) (by simp)

theorem pairwise_insertItem (x : PyDate × Entry) (l : List (PyDate × Entry))
    (h : l.Pairwise itemLE) : (insertItem x l).Pairwise itemLE := by
  induction l with
  | nil =>
    simp [insertItem, List.pairwise_cons]
  | cons y rest ih =>
    rcases List.pairwise_cons.mp h with ⟨hy, hrest⟩
    unfold insertItem
    by_cases hz : y.1.toOrdinal ≤ x.1.toOrdinal
    · rw [if_pos hz]
      apply List.pairwise_cons.mpr
      refine ⟨?_, ih hrest⟩
      intro b hb
      rcases (mem_insertItem x b rest).mp hb with rfl | hbm
      · exact hz
      · exact hy b hbm
    · rw [if_neg hz]
      apply List.pairwise_cons.mpr
      refine ⟨?_, h⟩
      intro b hb
      rcases List.mem_cons.mp hb with rfl | hbm
      · exact Nat.le_of_lt (Nat.lt_of_not_le hz)
      · exact Nat.le_trans (Nat.le_of_lt (Nat.lt_of_not_le hz)) (hy b hbm)

theorem sortItems_pairwise (l : List (PyDate × Entry)) :
    (sortItems l).Pairwise itemLE := by
  induction l with
  | nil => exact List.Pairwise.nil
  | cons x rest ih => exact pairwise_insertItem x (sortItems rest) ih

/-- C8: whenever the record loop succeeds, `get_upcoming_birthdays` returns
the collected items sorted ascending by congratulation date (the sort key of
each emitted dict), and the empty list when no record qualifies. -/
theorem get_upcoming_sorted_and_empty (book : AddressBook) (today : PyDate)
    (days : Int) (items : List (PyDate × Entry))
    (h : collectItems (book.map Prod.snd) today days = .ok items) :
    book.get_upcoming_birthdays today days =
      .ok ((sortItems items).map Prod.snd) ∧
    (sortItems items).Pairwise itemLE ∧
    ((∀ r ∈ book.map Prod.snd, recordItem today days r = none) →
      book.get_upcoming_birthdays today days = .ok []) := by
  refine ⟨?_, sortItems_pairwise items, ?_⟩
  · unfold AddressBook.get_upcoming_birthdays
    rw [h]
  · intro hall
    have hfm := collectItems_ok_filterMap _ _ _ _ h
    have hnil : List.filterMap (recordItem today days) (book.map Prod.snd) = [] :=
      List.filterMap_eq_nil_iff.mpr hall
    rw [hnil] at hfm
    subst hfm
    unfold AddressBook.get_upcoming_birthdays
    rw [h]
    rfl

/-- C8 witness: a two-record book whose items are collected out of date order
comes back sorted (Alice 14.03 before Bob 18.03), and a book whose only
record has no birthday yields the empty list. -/
theorem get_upcoming_sorted_and_empty_witness :
    AddressBook.get_upcoming_birthdays
      [("Bob", ⟨"Bob", [], some "16.03.1985"⟩),
       ("Alice", ⟨"Alice", [], some "14.03.1990"⟩)] ⟨2024, 3, 10⟩ 7 =
      .ok [⟨"Alice", "14.03.2024"⟩, ⟨"Bob", "18.03.2024"⟩] ∧
    AddressBook.get_upcoming_birthdays
      [("Carol", ⟨"Carol", [], none⟩)] ⟨2024, 3, 10⟩ 7 = .ok [] :=
  ⟨(get_upcoming_sorted_and_empty
      [("Bob", ⟨"Bob", [], some "16.03.1985"⟩),
       ("Alice", ⟨"Alice", [], some "14.03.1990"⟩)] ⟨2024, 3, 10⟩ 7
      [(⟨2024, 3, 18⟩, ⟨"Bob", "18.03.2024"⟩),
       (⟨2024, 3, 14⟩, ⟨"Alice", "14.03.2024"⟩)] rfl).1,
   (get_upcoming_sorted_and_empty [("Carol", ⟨"Carol", [], none⟩)]
      ⟨2024, 3, 10⟩ 7 [] rfl).2.2 (by decide)⟩

/-- C5 amended-claim witness at a concrete input. -/
theorem birthday_valid_characterization_witness :
    mkBirthday "14.03.1990" = .ok "14.03.1990" :=
  (birthday_valid_characterization "14.03.1990").1.mpr
    ⟨['1', '4'], ['0', '3'], ['1', '9', '9', '0'], by decide, by decide,
      by decide, by decide, by decide, by decide, by decide, by decide,
      by decide, by decide, by decide, by decide⟩
